import Mathlib

/-!
Verification of the runner-type registration module
(`st2actions/st2actions/bootstrap/runnersregistrar.py`).

The module holds a catalog `RUNNER_TYPES` (a list of runner-type
definition dictionaries) and one operation `register_runner_types`
that reconciles the catalog against a persistent store.

The store operations (`get_runnertype_by_name`, `RunnerType.add_or_update`)
and the definition validation (`RunnerTypeAPI.validate`) live in `st2common`,
outside this module; they are modelled from the specification (sections 3,
4.2 and 6). Everything else is translated directly from the source.
-/

/-- A parameter default value as it appears in the catalog dictionaries:
a boolean, an integer, a string, or the empty object `\x7b\x7d`. -/
inductive PVal where
  | b (x : Bool)
  | i (x : Int)
  | s (x : String)
  | obj
deriving DecidableEq, Repr

/-- One entry of a `runner_parameters` dictionary.  Fields that a given
catalog entry omits are `none`, mirroring absent dictionary keys. -/
structure ParameterSpec where
  description : Option String := none
  type_ : Option String := none
  required : Option Bool := none
  default : Option PVal := none
  immutable : Option Bool := none
deriving DecidableEq, Repr

/-- One runner-type definition dictionary, as stored in `RUNNER_TYPES`.
`experimental = none` models an absent `experimental` key, `some v` a
present key with value `v`; `del runnertype[...]` sets it to `none`. -/
structure RunnerDef where
  name : String
  description : String := ""
  enabled : Bool := true
  experimental : Option Bool := none
  runner_parameters : List (String × ParameterSpec) := []
  runner_module : String := ""
  query_module : Option String := none
deriving DecidableEq, Repr

/-- Modelled from the spec: a persisted RunnerTypeRecord is all of the
definition fields plus the store-assigned identity `id`. -/
structure Record where
  id : Nat
  content : RunnerDef
deriving DecidableEq, Repr

/-- The in-memory model handed to `add_or_update`: the definition content
plus an optional identity (set only when updating an existing record). -/
structure RTModel where
  id : Option Nat
  content : RunnerDef
deriving DecidableEq, Repr

/-- Modelled from the spec: the Store capability holding RunnerTypeRecord
values; `nextId` is the source of fresh identities assigned on creation. -/
structure Store where
  records : List Record
  nextId : Nat
deriving DecidableEq, Repr

def emptyStore : Store := ⟨[], 0⟩

/-- Modelled from the spec: `find_by_name` — query the store for an
existing record by definition name (`get_runnertype_by_name`). -/
def findByName (S : Store) (n : String) : Option Record :=
  S.records.find? (fun r => r.content.name == n)

/-- Modelled from the spec: `upsert` (`RunnerType.add_or_update`) —
creates a record with a fresh id when the model carries no identity,
updates the identified record in place when it does. -/
def upsertModel (S : Store) (m : RTModel) : Store :=
  match m.id with
  | some i =>
      ⟨S.records.map (fun r => if r.id = i then ⟨i, m.content⟩ else r), S.nextId⟩
  | none =>
      ⟨S.records ++ [⟨S.nextId, m.content⟩], S.nextId + 1⟩

/-- Modelled from the spec: `RunnerTypeAPI.validate` — check the
definition shape: required fields present (non-empty name and
`runner_module`), and every parameter spec internally consistent:
if `required` is true, `default` must be absent. -/
def validateDef (d : RunnerDef) : Bool :=
  d.name ≠ "" && d.runner_module ≠ "" &&
    d.runner_parameters.all
      (fun p => !(p.2.required == some true && p.2.default.isSome))

/-- The per-definition result of a reconciliation attempt. -/
inductive Outcome where
  | Skipped
  | Created
  | Updated
  | Failed
deriving DecidableEq, Repr

/-- An exception escaping `register_runner_types`: a store lookup failure
other than not-found, or a validation failure (neither is caught by the
source; only the persistence step sits inside `try/except Exception`). -/
inductive RegError where
  | lookupError
  | validationError
deriving DecidableEq, Repr

/-- Processing of one catalog entry, translated line by line from the loop
body of `register_runner_types`.  `lf n = true` injects a store lookup
failure other than not-found for name `n`; `pf n = true` injects a
persistence failure for name `n` (both modelled from the spec's store
failure modes).  Returns the (possibly stripped) definition, the store
afterwards, and either an outcome or an uncaught exception. -/
def processDef (exp : Bool) (lf pf : String → Bool) (S : Store) (d : RunnerDef) :
    RunnerDef × Store × Except RegError Outcome :=
  if d.experimental.getD false && !exp then
    (d, S, .ok .Skipped)
  else
    let d' : RunnerDef := { d with experimental := none }
    if lf d.name then
      (d', S, .error .lookupError)
    else
      let existing := findByName S d.name
      if validateDef d' then
        let m : RTModel := ⟨existing.map (fun r => r.id), d'⟩
        if pf d.name then
          (d', S, .ok .Failed)
        else
          (d', upsertModel S m, .ok (if existing.isSome then .Updated else .Created))
      else
        (d', S, .error .validationError)

/-- Result of a whole registration pass: the catalog afterwards (the loop
mutates the shared definitions in place), the store afterwards, the
outcomes of the entries processed so far in catalog order, and the
uncaught exception if the pass aborted. -/
structure RunResult where
  cat : List RunnerDef
  store : Store
  outs : List Outcome
  err : Option RegError
deriving DecidableEq, Repr

def registerAux (exp : Bool) (lf pf : String → Bool) :
    List RunnerDef → Store → RunResult
  | [], S => ⟨[], S, [], none⟩
  | d :: ds, S =>
    match processDef exp lf pf S d with
    | (d', S', .ok o) =>
        let rest := registerAux exp lf pf ds S'
        ⟨d' :: rest.cat, rest.store, o :: rest.outs, rest.err⟩
    | (d', S', .error e) => ⟨d' :: ds, S', [], some e⟩

/-- `register_runner_types(experimental)`: one pass over the catalog. -/
def register_runner_types (exp : Bool) (cat : List RunnerDef) (S : Store)
    (lf pf : String → Bool) : RunResult :=
  registerAux exp lf pf cat S

/-- A store with no injected failures. -/
def noFault : String → Bool := fun _ => false

/-- The canonical catalog `RUNNER_TYPES`, parameterized over the constants
imported from `st2common.constants.runners`. -/
def RUNNER_TYPES (localT fabricT pythonT : Int) (fabricDir : String) :
    List RunnerDef :=
  [ { name := "run-local",
      description := "A runner to execute local actions as a fixed user.",
      enabled := true,
      runner_parameters :=
        [ ("cmd", { description := some "Arbitrary Linux command to be executed on the host.",
                    type_ := some "string" }),
          ("cwd", { description := some "Working directory where the command will be executed in",
                    type_ := some "string" }),
          ("env", { description := some "Environment variables which will be available to the command(e.g. key1=val1,key2=val2)",
                    type_ := some "object" }),
          ("sudo", { description := some "The command will be executed with sudo.",
                     type_ := some "boolean", default := some (.b false) }),
          ("kwarg_op", { description := some "Operator to use in front of keyword args i.e. \"--\" or \"-\".",
                         type_ := some "string", default := some (.s "--") }),
          ("timeout", { description := some "Action timeout in seconds. Action will get killed if it doesn\x27t finish in timeout seconds.",
                        type_ := some "integer", default := some (.i localT) }) ],
      runner_module := "st2actions.runners.localrunner" },
    { name := "run-local-script",
      description := "A runner to execute local actions as a fixed user.",
      enabled := true,
      runner_parameters :=
        [ ("cwd", { description := some "Working directory where the script will be executed in",
                    type_ := some "string" }),
          ("env", { description := some "Environment variables which will be available to the script(e.g. key1=val1,key2=val2)",
                    type_ := some "object" }),
          ("sudo", { description := some "The command will be executed with sudo.",
                     type_ := some "boolean", default := some (.b false) }),
          ("kwarg_op", { description := some "Operator to use in front of keyword args i.e. \"--\" or \"-\".",
                         type_ := some "string", default := some (.s "--") }),
          ("timeout", { description := some "Action timeout in seconds. Action will get killed if it doesn\x27t finish in timeout seconds.",
                        type_ := some "integer", default := some (.i localT) }) ],
      runner_module := "st2actions.runners.localrunner" },
    { name := "run-remote",
      description := "A remote execution runner that executes actions as a fixed system user.",
      enabled := true,
      runner_parameters :=
        [ ("hosts", { description := some "A comma delimited string of a list of hosts where the remote command will be executed.",
                      type_ := some "string", required := some true }),
          ("username", { description := some "Username used to log-in. If not provided, default username from config is used.",
                         type_ := some "string", required := some false }),
          ("password", { description := some "Password used to log in. If not provided, private key from the config file is used.",
                         type_ := some "string", required := some false }),
          ("private_key", { description := some "Private key used to log in. If not provided, private key from the config file is used.",
                            type_ := some "string", required := some false }),
          ("cmd", { description := some "Arbitrary Linux command to be executed on the remote host(s).",
                    type_ := some "string" }),
          ("cwd", { description := some "Working directory where the script will be executed in",
                    type_ := some "string" }),
          ("env", { description := some "Environment variables which will be available to the command(e.g. key1=val1,key2=val2)",
                    type_ := some "object" }),
          ("parallel", { description := some "Default to parallel execution.",
                         type_ := some "boolean", default := some (.b true),
                         immutable := some true }),
          ("sudo", { description := some "The remote command will be executed with sudo.",
                     type_ := some "boolean", default := some (.b false) }),
          ("dir", { description := some "The working directory where the script will be copied to on the remote host.",
                    type_ := some "string", default := some (.s fabricDir),
                    immutable := some true }),
          ("kwarg_op", { description := some "Operator to use in front of keyword args i.e. \"--\" or \"-\".",
                         type_ := some "string", default := some (.s "--") }),
          ("timeout", { description := some "Action timeout in seconds. Action will get killed if it doesn\x27t finish in timeout seconds.",
                        type_ := some "integer", default := some (.i fabricT) }) ],
      runner_module := "st2actions.runners.fabricrunner" },
    { name := "run-remote-script",
      description := "A remote execution runner that executes actions as a fixed system user.",
      enabled := true,
      runner_parameters :=
        [ ("hosts", { description := some "A comma delimited string of a list of hosts where the remote command will be executed.",
                      type_ := some "string", required := some true }),
          ("username", { description := some "Username used to log-in. If not provided, default username from config is used.",
                         type_ := some "string", required := some false }),
          ("password", { description := some "Password used to log in. If not provided, private key from the config file is used.",
                         type_ := some "string", required := some false }),
          ("private_key", { description := some "Private key used to log in. If not provided, private key from the config file is used.",
                            type_ := some "string", required := some false }),
          ("parallel", { description := some "Default to parallel execution.",
                         type_ := some "boolean", default := some (.b true),
                         immutable := some true }),
          ("cwd", { description := some "Working directory where the script will be executed in.",
                    type_ := some "string", default := some (.s fabricDir) }),
          ("env", { description := some "Environment variables which will be available to the script(e.g. key1=val1,key2=val2)",
                    type_ := some "object" }),
          ("sudo", { description := some "The remote command will be executed with sudo.",
                     type_ := some "boolean", default := some (.b false) }),
          ("dir", { description := some "The working directory where the script will be copied to on the remote host.",
                    type_ := some "string", default := some (.s fabricDir) }),
          ("kwarg_op", { description := some "Operator to use in front of keyword args i.e. \"--\" or \"-\".",
                         type_ := some "string", default := some (.s "--") }),
          ("timeout", { description := some "Action timeout in seconds. Action will get killed if it doesn\x27t finish in timeout seconds.",
                        type_ := some "integer", default := some (.i fabricT) }) ],
      runner_module := "st2actions.runners.fabricrunner" },
    { name := "http-runner",
      description := "A HTTP client for running HTTP actions.",
      enabled := true,
      runner_parameters :=
        [ ("url", { description := some "URL to the HTTP endpoint.",
                    type_ := some "string", required := some true }),
          ("headers", { description := some "HTTP headers for the request.",
                        type_ := some "string" }),
          ("cookies", { description := some "Optional cookies to send with the request.",
                        type_ := some "object" }),
          ("http_proxy", { description := some "A URL of a HTTP proxy to use (e.g. http://10.10.1.10:3128).",
                           type_ := some "string" }),
          ("https_proxy", { description := some "A URL of a HTTPs proxy to use (e.g. http://10.10.1.10:3128).",
                            type_ := some "string" }),
          ("allow_redirects", { description := some "Set to True if POST/PUT/DELETE redirect following is allowed.",
                                type_ := some "boolean", default := some (.b false) }) ],
      runner_module := "st2actions.runners.httprunner" },
    { name := "mistral-v1",
      description := "A runner for executing mistral v1 workflow.",
      enabled := true,
      runner_parameters :=
        [ ("workbook", { description := some "The name of the workbook.",
                         type_ := some "string", required := some true }),
          ("task", { description := some "The startup task in the workbook to execute.",
                     type_ := some "string", required := some true }),
          ("context", { description := some "Context for the startup task.",
                        type_ := some "object", default := some .obj }) ],
      runner_module := "st2actions.runners.mistral.v1" },
    { name := "mistral-v2",
      description := "A runner for executing mistral v2 workflow.",
      enabled := true,
      runner_parameters :=
        [ ("workflow", { description := some "The name of the workflow to run if the entry_point is a workbook of many workflows. The name should be in the format \"<pack_name>.<action_name>.<workflow_name>\". If entry point is a workflow or a workbook with a single workflow, the runner will identify the workflow automatically.",
                         type_ := some "string" }),
          ("task", { description := some "The name of the task to run for reverse workflow.",
                     type_ := some "string" }),
          ("context", { description := some "Additional workflow inputs.",
                        type_ := some "object", default := some .obj }) ],
      runner_module := "st2actions.runners.mistral.v2",
      query_module := some "st2actions.query.mistral.v2" },
    { name := "action-chain",
      description := "A runner for launching linear action chains.",
      enabled := true,
      runner_parameters := [],
      runner_module := "st2actions.runners.actionchainrunner" },
    { name := "run-python",
      description := "A runner for launching python actions.",
      enabled := true,
      runner_parameters :=
        [ ("env", { description := some "Environment variables which will be available to the script(e.g. key1=val1,key2=val2)",
                    type_ := some "object" }),
          ("timeout", { description := some "Action timeout in seconds. Action will get killed if it doesn\x27t finish in timeout seconds.",
                        type_ := some "integer", default := some (.i pythonT) }) ],
      runner_module := "st2actions.runners.pythonrunner" },
    { name := "run-windows-cmd",
      description := "A remote execution runner that executes commandson Windows hosts.",
      experimental := some true,
      enabled := true,
      runner_parameters :=
        [ ("host", { description := some "Host to execute the command on",
                     type_ := some "string", required := some true }),
          ("username", { description := some "Username used to log-in.",
                         type_ := some "string", default := some (.s "Administrator"),
                         required := some true }),
          ("password", { description := some "Password used to log in.",
                         type_ := some "string", required := some true }),
          ("cmd", { description := some "Arbitrary command to be executed on the remote host.",
                    type_ := some "string" }),
          ("timeout", { description := some "Action timeout in seconds. Action will get killed if it doesn\x27t finish in timeout seconds.",
                        type_ := some "integer", default := some (.i fabricT) }) ],
      runner_module := "st2actions.runners.windows_command_runner" },
    { name := "run-windows-script",
      description := "A remote execution runner that executes power shell scriptson Windows hosts.",
      enabled := true,
      experimental := some true,
      runner_parameters :=
        [ ("host", { description := some "Host to execute the command on",
                     type_ := some "string", required := some true }),
          ("username", { description := some "Username used to log-in.",
                         type_ := some "string", default := some (.s "Administrator"),
                         required := some true }),
          ("password", { description := some "Password used to log in.",
                         type_ := some "string", required := some true }),
          ("share", { description := some "Name of the Windows share where script files are uploaded",
                      type_ := some "string", required := some true,
                      default := some (.s "C$") }),
          ("timeout", { description := some "Action timeout in seconds. Action will get killed if it doesn\x27t finish in timeout seconds.",
                        type_ := some "integer", default := some (.i fabricT) }) ],
      runner_module := "st2actions.runners.windows_script_runner" } ]

/-! ### Basic helpers and characterization lemmas -/

/-- The skip condition of the loop: the entry is experimental and
experimental runners are not included. -/
def skipd (exp : Bool) (d : RunnerDef) : Bool :=
  d.experimental.getD false && !exp

/-- Deleting the `experimental` key from a definition dictionary. -/
def stripd (d : RunnerDef) : RunnerDef :=
  { d with experimental := none }

/-- Store well-formedness: identities are pairwise distinct and below the
fresh-id counter.  Every store the system builds from the empty store
satisfies this. -/
def storeWF (S : Store) : Prop :=
  (S.records.map Record.id).Nodup ∧ ∀ r ∈ S.records, r.id < S.nextId

/-- The store reflects a definition: lookup by its name returns a record
whose content is the stripped definition. -/
def reflects (S : Store) (d : RunnerDef) : Prop :=
  ∃ r, findByName S d.name = some r ∧ r.content = stripd d

/-- Some record with the given name is in the store. -/
def nameMem (S : Store) (n : String) : Prop :=
  ∃ r ∈ S.records, r.content.name = n

theorem stripd_name (d : RunnerDef) : (stripd d).name = d.name := rfl

theorem stripd_idem (d : RunnerDef) : stripd (stripd d) = stripd d := rfl

theorem skipd_stripd (exp : Bool) (d : RunnerDef) : skipd exp (stripd d) = false := by
  simp [skipd, stripd]

theorem validateDef_stripd (d : RunnerDef) :
    validateDef (stripd d) = validateDef d := rfl

theorem processDef_of_skip {exp : Bool} {lf pf : String → Bool} {S : Store}
    {d : RunnerDef} (h : skipd exp d = true) :
    processDef exp lf pf S d = (d, S, .ok .Skipped) := by
  have hb : (d.experimental.getD false && !exp) = true := h
  simp [processDef, hb]

theorem processDef_of_lfail {exp : Bool} {lf pf : String → Bool} {S : Store}
    {d : RunnerDef} (h : skipd exp d = false) (hlf : lf d.name = true) :
    processDef exp lf pf S d = (stripd d, S, .error .lookupError) := by
  have hb : (d.experimental.getD false && !exp) = false := h
  simp [processDef, hb, hlf, stripd]

theorem processDef_of_invalid {exp : Bool} {lf pf : String → Bool} {S : Store}
    {d : RunnerDef} (h : skipd exp d = false) (hlf : lf d.name = false)
    (hv : validateDef (stripd d) = false) :
    processDef exp lf pf S d = (stripd d, S, .error .validationError) := by
  have hb : (d.experimental.getD false && !exp) = false := h
  simp [stripd] at hv
  simp [processDef, hb, hlf, hv, stripd]

theorem processDef_of_pfail {exp : Bool} {lf pf : String → Bool} {S : Store}
    {d : RunnerDef} (h : skipd exp d = false) (hlf : lf d.name = false)
    (hv : validateDef (stripd d) = true) (hpf : pf d.name = true) :
    processDef exp lf pf S d = (stripd d, S, .ok .Failed) := by
  have hb : (d.experimental.getD false && !exp) = false := h
  simp [stripd] at hv
  simp [processDef, hb, hlf, hv, hpf, stripd]

theorem processDef_of_success {exp : Bool} {lf pf : String → Bool} {S : Store}
    {d : RunnerDef} (h : skipd exp d = false) (hlf : lf d.name = false)
    (hv : validateDef (stripd d) = true) (hpf : pf d.name = false) :
    processDef exp lf pf S d =
      (stripd d,
       upsertModel S ⟨(findByName S d.name).map (fun r => r.id), stripd d⟩,
       .ok (if (findByName S d.name).isSome then .Updated else .Created)) := by
  have hb : (d.experimental.getD false && !exp) = false := h
  simp [stripd] at hv
  simp [processDef, hb, hlf, hv, hpf, stripd]

theorem registerAux_nil (exp : Bool) (lf pf : String → Bool) (S : Store) :
    registerAux exp lf pf [] S = ⟨[], S, [], none⟩ := rfl

theorem registerAux_cons_ok {exp : Bool} {lf pf : String → Bool} {S S' : Store}
    {d d' : RunnerDef} {o : Outcome} {ds : List RunnerDef}
    (h : processDef exp lf pf S d = (d', S', .ok o)) :
    registerAux exp lf pf (d :: ds) S =
      ⟨d' :: (registerAux exp lf pf ds S').cat,
       (registerAux exp lf pf ds S').store,
       o :: (registerAux exp lf pf ds S').outs,
       (registerAux exp lf pf ds S').err⟩ := by
  simp [registerAux, h]

theorem registerAux_cons_err {exp : Bool} {lf pf : String → Bool} {S S' : Store}
    {d d' : RunnerDef} {e : RegError} {ds : List RunnerDef}
    (h : processDef exp lf pf S d = (d', S', .error e)) :
    registerAux exp lf pf (d :: ds) S = ⟨d' :: ds, S', [], some e⟩ := by
  simp [registerAux, h]

/-! ### List and store lemmas -/

theorem find?_map_congr {α : Type u} (p : α → Bool) (f : α → α) :
    ∀ l : List α, (∀ x ∈ l, (p x = true → f x = x) ∧ p (f x) = p x) →
      (l.map f).find? p = l.find? p := by
  intro l h
  induction l with
  | nil => rfl
  | cons x xs ih =>
    rcases h x (by simp) with ⟨h1, h2⟩
    cases hp : p x with
    | false =>
        rw [List.map_cons, List.find?_cons_of_neg, List.find?_cons_of_neg xs (by simp [hp])]
        · exact ih (fun y hy => h y (by simp [hy]))
        · simp [h2, hp]
    | true =>
        rw [List.map_cons, h1 hp, List.find?_cons_of_pos xs hp,
          List.find?_cons_of_pos (xs.map f) hp]

theorem find?_map_replace {p : Record → Bool} {r c : Record} :
    ∀ {l : List Record}, l.find? p = some r →
      (∀ x ∈ l, x.id = r.id → x = r) → p c = true →
      (l.map (fun x => if x.id = r.id then c else x)).find? p = some c := by
  intro l
  induction l with
  | nil => intro hf; simp at hf
  | cons x xs ih =>
    intro hf hinj hpc
    cases hp : p x with
    | true =>
        rw [List.find?_cons_of_pos xs hp] at hf
        have hx : x = r := by injection hf
        subst hx
        rw [List.map_cons, if_pos rfl, List.find?_cons_of_pos _ hpc]
    | false =>
        rw [List.find?_cons_of_neg xs (by simp [hp])] at hf
        have hxr : x.id ≠ r.id := by
          intro hid
          have hx : x = r := hinj x (by simp) hid
          subst hx
          have := List.find?_some hf
          simp [hp] at this
        rw [List.map_cons, if_neg hxr, List.find?_cons_of_neg _ (by simp [hp])]
        exact ih hf (fun y hy hid => hinj y (by simp [hy]) hid) hpc

/-- Record identities are injective on a store with pairwise distinct ids. -/
theorem id_inj_of_storeWF {S : Store} (hWF : storeWF S) :
    ∀ x ∈ S.records, ∀ y ∈ S.records, x.id = y.id → x = y := by
  intro x hx y hy hxy
  exact List.inj_on_of_nodup_map hWF.1 hx hy hxy

theorem findByName_name {S : Store} {n : String} {r : Record}
    (h : findByName S n = some r) : r.content.name = n := by
  have := List.find?_some h
  exact eq_of_beq this

theorem findByName_mem {S : Store} {n : String} {r : Record}
    (h : findByName S n = some r) : r ∈ S.records :=
  List.mem_of_find?_eq_some h

/-- Updating an existing record: lookup by the written name finds the
updated record. -/
theorem findByName_upsert_self {S : Store} {n : String} {r : Record}
    {c : RunnerDef} (hWF : storeWF S) (hf : findByName S n = some r)
    (hc : c.name = n) :
    findByName (upsertModel S ⟨some r.id, c⟩) n = some ⟨r.id, c⟩ := by
  have hinj : ∀ x ∈ S.records, x.id = r.id → x = r := by
    intro x hx hid
    exact id_inj_of_storeWF hWF x hx r (findByName_mem hf) hid
  have : (S.records.map (fun x => if x.id = r.id then (⟨r.id, c⟩ : Record) else x)).find?
      (fun x => x.content.name == n) = some ⟨r.id, c⟩ :=
    find?_map_replace hf hinj (by simp [hc])
  simpa [upsertModel, findByName] using this

/-- Updating an existing record leaves lookups for every other name
unchanged. -/
theorem findByName_upsert_other {S : Store} {n m : String} {r : Record}
    {c : RunnerDef} (hWF : storeWF S) (hf : findByName S n = some r)
    (hc : c.name = n) (hnm : m ≠ n) :
    findByName (upsertModel S ⟨some r.id, c⟩) m = findByName S m := by
  have hinj : ∀ x ∈ S.records, x.id = r.id → x = r := by
    intro x hx hid
    exact id_inj_of_storeWF hWF x hx r (findByName_mem hf) hid
  have hrn : r.content.name = n := findByName_name hf
  have : (S.records.map (fun x => if x.id = r.id then (⟨r.id, c⟩ : Record) else x)).find?
      (fun x => x.content.name == m) = S.records.find? (fun x => x.content.name == m) := by
    apply find?_map_congr
    intro x hx
    constructor
    · intro hp
      have hxr : x.id ≠ r.id := by
        intro hid
        have hx' : x = r := hinj x hx hid
        subst hx'
        rw [hrn] at hp
        simp at hp
        exact hnm hp.symm
      simp [hxr]
    · by_cases hxr : x.id = r.id
      · have hx' : x = r := hinj x hx hxr
        subst hx'
        simp [hxr, hrn, hc]
      · simp [hxr]
  simpa [upsertModel, findByName] using this

/-- Creating a record: lookup by the written name finds it when no record
with that name existed. -/
theorem findByName_upsert_create_self {S : Store} {c : RunnerDef}
    (hf : findByName S c.name = none) :
    findByName (upsertModel S ⟨none, c⟩) c.name = some ⟨S.nextId, c⟩ := by
  simp only [upsertModel, findByName] at hf ⊢
  rw [List.find?_append, hf]
  simp

/-- Creating a record leaves lookups for every other name unchanged. -/
theorem findByName_upsert_create_other {S : Store} {c : RunnerDef} {m : String}
    (hnm : m ≠ c.name) :
    findByName (upsertModel S ⟨none, c⟩) m = findByName S m := by
  simp only [upsertModel, findByName]
  rw [List.find?_append]
  have : List.find? (fun x => x.content.name == m) [(⟨S.nextId, c⟩ : Record)] = none := by
    simp
    exact fun h => absurd h.symm hnm
  rw [this]
  cases S.records.find? (fun x => x.content.name == m) <;> rfl

theorem ids_map_replace {l : List Record} {i : Nat} {c : RunnerDef} :
    (l.map (fun x => if x.id = i then (⟨i, c⟩ : Record) else x)).map Record.id
      = l.map Record.id := by
  rw [List.map_map]
  apply List.map_congr_left
  intro x hx
  by_cases h : x.id = i <;> simp [Function.comp, h]

theorem storeWF_upsert_update {S : Store} {i : Nat} {c : RunnerDef}
    (hWF : storeWF S) (hi : ∃ x ∈ S.records, x.id = i) :
    storeWF (upsertModel S ⟨some i, c⟩) := by
  obtain ⟨x0, hx0, hx0i⟩ := hi
  have hib : i < S.nextId := hx0i ▸ hWF.2 x0 hx0
  refine ⟨?_, ?_⟩
  · show ((S.records.map fun x => if x.id = i then (⟨i, c⟩ : Record) else x).map Record.id).Nodup
    rw [ids_map_replace]
    exact hWF.1
  · intro r hr
    rcases List.mem_map.mp hr with ⟨x, hx, hfx⟩
    by_cases h : x.id = i
    · rw [← hfx]
      simp only [h, if_pos rfl]
      exact hib
    · rw [← hfx]
      simp only [if_neg h]
      exact hWF.2 x hx

theorem storeWF_upsert_create {S : Store} {c : RunnerDef} (hWF : storeWF S) :
    storeWF (upsertModel S ⟨none, c⟩) := by
  refine ⟨?_, ?_⟩
  · show ((S.records ++ [(⟨S.nextId, c⟩ : Record)]).map Record.id).Nodup
    rw [List.map_append, List.nodup_append]
    refine ⟨hWF.1, by simp, ?_⟩
    intro a ha hb
    simp only [List.map_cons, List.map_nil, List.mem_singleton] at hb
    rcases List.mem_map.mp ha with ⟨x, hx, rfl⟩
    have := hWF.2 x hx
    rw [hb] at this
    exact absurd this (lt_irrefl _)
  · intro r hr
    show r.id < S.nextId + 1
    rcases List.mem_append.mp hr with h | h
    · exact Nat.lt_succ_of_lt (hWF.2 r h)
    · simp only [List.mem_singleton] at h
      subst h
      exact Nat.lt_succ_self _

theorem names_upsert_update {S : Store} {n : String} {r : Record}
    {c : RunnerDef} (hWF : storeWF S) (hf : findByName S n = some r)
    (hc : c.name = n) :
    (upsertModel S ⟨some r.id, c⟩).records.map (fun x => x.content.name)
      = S.records.map (fun x => x.content.name) := by
  show (S.records.map fun x => if x.id = r.id then (⟨r.id, c⟩ : Record) else x).map
      (fun x => x.content.name) = _
  rw [List.map_map]
  apply List.map_congr_left
  intro x hx
  by_cases h : x.id = r.id
  · have hx' : x = r := id_inj_of_storeWF hWF x hx r (findByName_mem hf) h
    subst hx'
    simp [hc, findByName_name hf]
  · simp [Function.comp, h]

theorem names_upsert_create {S : Store} {c : RunnerDef} :
    (upsertModel S ⟨none, c⟩).records.map (fun x => x.content.name)
      = S.records.map (fun x => x.content.name) ++ [c.name] := by
  simp [upsertModel]

/-- Case-analysis principle for `processDef`, following the five disjoint
paths through the loop body. -/
theorem processDef_cases (motive : RunnerDef × Store × Except RegError Outcome → Prop)
    (exp : Bool) (lf pf : String → Bool) (S : Store) (d : RunnerDef)
    (hskip : skipd exp d = true → motive (d, S, .ok .Skipped))
    (hlfail : skipd exp d = false → lf d.name = true →
      motive (stripd d, S, .error .lookupError))
    (hinv : skipd exp d = false → lf d.name = false →
      validateDef (stripd d) = false → motive (stripd d, S, .error .validationError))
    (hpfail : skipd exp d = false → lf d.name = false →
      validateDef (stripd d) = true → pf d.name = true →
      motive (stripd d, S, .ok .Failed))
    (hsucc : skipd exp d = false → lf d.name = false →
      validateDef (stripd d) = true → pf d.name = false →
      motive (stripd d,
        upsertModel S ⟨(findByName S d.name).map (fun r => r.id), stripd d⟩,
        .ok (if (findByName S d.name).isSome then .Updated else .Created))) :
    motive (processDef exp lf pf S d) := by
  by_cases hs : skipd exp d = true
  · rw [processDef_of_skip hs]
    exact hskip hs
  · have hs' : skipd exp d = false := by simpa using hs
    by_cases hl : lf d.name = true
    · rw [processDef_of_lfail hs' hl]
      exact hlfail hs' hl
    · have hl' : lf d.name = false := by simpa using hl
      by_cases hv : validateDef (stripd d) = true
      · by_cases hp : pf d.name = true
        · rw [processDef_of_pfail hs' hl' hv hp]
          exact hpfail hs' hl' hv hp
        · have hp' : pf d.name = false := by simpa using hp
          rw [processDef_of_success hs' hl' hv hp']
          exact hsucc hs' hl' hv hp'
      · have hv' : validateDef (stripd d) = false := by simpa using hv
        rw [processDef_of_invalid hs' hl' hv']
        exact hinv hs' hl' hv'

/-- Names with at most one record each (the spec's one-record-per-name
invariant, stated as distinctness of stored names). -/
def storeNamesNodup (S : Store) : Prop :=
  (S.records.map (fun x => x.content.name)).Nodup

theorem nameMem_iff {S : Store} {n : String} :
    nameMem S n ↔ n ∈ S.records.map (fun x => x.content.name) := by
  simp [nameMem, List.mem_map]

theorem notMem_names_of_findByName_none {S : Store} {n : String}
    (h : findByName S n = none) : n ∉ S.records.map (fun x => x.content.name) := by
  intro hmem
  rcases List.mem_map.mp hmem with ⟨r, hr, hn⟩
  have := List.find?_eq_none.mp h r hr
  simp [hn] at this

/-- One step changes the stored names not at all (skip, failure, or
update in place) or by appending the definition's name (creation, which
happens only when the name was absent). -/
theorem processDef_names (exp : Bool) (lf pf : String → Bool) (S : Store)
    (d : RunnerDef) (hWF : storeWF S) :
    ((processDef exp lf pf S d).2.1.records.map (fun x => x.content.name)
        = S.records.map (fun x => x.content.name))
    ∨ ((processDef exp lf pf S d).2.1.records.map (fun x => x.content.name)
        = S.records.map (fun x => x.content.name) ++ [d.name]
        ∧ findByName S d.name = none) := by
  apply processDef_cases
    (motive := fun t => (t.2.1.records.map (fun x => x.content.name)
        = S.records.map (fun x => x.content.name))
      ∨ (t.2.1.records.map (fun x => x.content.name)
        = S.records.map (fun x => x.content.name) ++ [d.name]
        ∧ findByName S d.name = none))
  · intro _; exact Or.inl rfl
  · intro _ _; exact Or.inl rfl
  · intro _ _ _; exact Or.inl rfl
  · intro _ _ _ _; exact Or.inl rfl
  · intro _ _ _ _
    cases hex : findByName S d.name with
    | none =>
        refine Or.inr ⟨?_, rfl⟩
        simp only [hex, Option.map_none]
        exact names_upsert_create
    | some r =>
        refine Or.inl ?_
        simp only [hex, Option.map_some]
        exact names_upsert_update hWF hex rfl

theorem processDef_storeWF (exp : Bool) (lf pf : String → Bool) (S : Store)
    (d : RunnerDef) (hWF : storeWF S) :
    storeWF (processDef exp lf pf S d).2.1 := by
  apply processDef_cases (motive := fun t => storeWF t.2.1)
  · intro _; exact hWF
  · intro _ _; exact hWF
  · intro _ _ _; exact hWF
  · intro _ _ _ _; exact hWF
  · intro _ _ _ _
    cases hex : findByName S d.name with
    | none =>
        simp only [hex, Option.map_none]
        exact storeWF_upsert_create hWF
    | some r =>
        simp only [hex, Option.map_some]
        exact storeWF_upsert_update hWF ⟨r, findByName_mem hex, rfl⟩

theorem nameMem_of_reflects {S : Store} {d : RunnerDef} (h : reflects S d) :
    nameMem S d.name := by
  rcases h with ⟨r, hr, _⟩
  exact ⟨r, findByName_mem hr, findByName_name hr⟩

/-- After a successful lookup-validate-persist step, the store reflects
the definition. -/
theorem processDef_reflects_self {exp : Bool} {lf pf : String → Bool}
    {S : Store} {d : RunnerDef} (hWF : storeWF S) (hs : skipd exp d = false)
    (hl : lf d.name = false) (hv : validateDef (stripd d) = true)
    (hp : pf d.name = false) :
    reflects (processDef exp lf pf S d).2.1 d := by
  rw [processDef_of_success hs hl hv hp]
  cases hex : findByName S d.name with
  | none =>
      refine ⟨⟨S.nextId, stripd d⟩, ?_, rfl⟩
      simp only [hex, Option.map_none]
      exact findByName_upsert_create_self (c := stripd d) hex
  | some r =>
      refine ⟨⟨r.id, stripd d⟩, ?_, rfl⟩
      simp only [hex, Option.map_some]
      exact findByName_upsert_self hWF hex rfl

/-- A step on one definition does not disturb the reflection of a
definition with a different name. -/
theorem processDef_reflects_other {exp : Bool} {lf pf : String → Bool}
    {S : Store} {d e : RunnerDef} (hWF : storeWF S) (hne : e.name ≠ d.name)
    (hre : reflects S e) :
    reflects (processDef exp lf pf S d).2.1 e := by
  apply processDef_cases (motive := fun t => reflects t.2.1 e)
  · intro _; exact hre
  · intro _ _; exact hre
  · intro _ _ _; exact hre
  · intro _ _ _ _; exact hre
  · intro _ _ _ _
    cases hex : findByName S d.name with
    | none =>
        simp only [hex, Option.map_none']
        unfold reflects
        rw [findByName_upsert_create_other (c := stripd d) hne]
        exact hre
    | some r =>
        simp only [hex, Option.map_some']
        unfold reflects
        rw [findByName_upsert_other (c := stripd d) hWF hex rfl hne]
        exact hre

/-- On a store that already reflects a stripped, valid definition, the
step is the identity on the store and yields `Updated`. -/
theorem processDef_fix {exp : Bool} {S : Store} {d : RunnerDef} {r : Record}
    (hWF : storeWF S) (hf : findByName S d.name = some r)
    (hr : r.content = stripd d) (hd : stripd d = d)
    (hv : validateDef (stripd d) = true) :
    processDef exp noFault noFault S d = (d, S, .ok .Updated) := by
  have hs : skipd exp d = false := by
    rw [← hd]; exact skipd_stripd exp d
  rw [processDef_of_success hs rfl hv rfl]
  have hup : upsertModel S ⟨some r.id, stripd d⟩ = S := by
    show Store.mk (S.records.map fun x =>
      if x.id = r.id then ⟨r.id, stripd d⟩ else x) S.nextId = S
    have hrec : (S.records.map fun x =>
        if x.id = r.id then (⟨r.id, stripd d⟩ : Record) else x) = S.records := by
      conv_rhs => rw [← List.map_id S.records]
      apply List.map_congr_left
      intro x hx
      by_cases h : x.id = r.id
      · have hx' : x = r := id_inj_of_storeWF hWF x hx r (findByName_mem hf) h
        rw [if_pos h, hx', ← hr]
        rfl
      · simp [h]
    rw [hrec]
  rw [hf]
  show (stripd d, upsertModel S ⟨some r.id, stripd d⟩, Except.ok Outcome.Updated)
    = (d, S, Except.ok Outcome.Updated)
  rw [hup, hd]

/-! ### Pass-level lemmas -/

/-- When every in-scope definition validates and no lookup fails, the pass
completes (no uncaught exception) with one outcome per catalog entry,
whatever the persistence failures. -/
theorem registerAux_complete (exp : Bool) (lf pf : String → Bool) :
    ∀ (cat : List RunnerDef) (S : Store),
      (∀ d ∈ cat, validateDef (stripd d) = true) →
      (∀ d ∈ cat, lf d.name = false) →
      (registerAux exp lf pf cat S).err = none ∧
      (registerAux exp lf pf cat S).outs.length = cat.length := by
  intro cat
  induction cat with
  | nil => intro S _ _; exact ⟨rfl, rfl⟩
  | cons d ds ih =>
    intro S hv hl
    have hvds : ∀ e ∈ ds, validateDef (stripd e) = true := fun e he => hv e (by simp [he])
    have hlds : ∀ e ∈ ds, lf e.name = false := fun e he => hl e (by simp [he])
    by_cases hs : skipd exp d = true
    · rw [registerAux_cons_ok (processDef_of_skip hs)]
      have h := ih S hvds hlds
      exact ⟨h.1, by simp [h.2]⟩
    · have hs' : skipd exp d = false := by simpa using hs
      have hld : lf d.name = false := hl d (by simp)
      have hvd : validateDef (stripd d) = true := hv d (by simp)
      by_cases hp : pf d.name = true
      · rw [registerAux_cons_ok (processDef_of_pfail hs' hld hvd hp)]
        have h := ih S hvds hlds
        exact ⟨h.1, by simp [h.2]⟩
      · have hp' : pf d.name = false := by simpa using hp
        rw [registerAux_cons_ok (processDef_of_success hs' hld hvd hp')]
        have h := ih (upsertModel S ⟨(findByName S d.name).map (fun r => r.id), stripd d⟩)
          hvds hlds
        exact ⟨h.1, by simp [h.2]⟩

/-- The first pass of a fault-free run: it completes, keeps the store
well-formed, strips exactly the processed definitions, emits
Skipped/Created/Updated outcomes matching the skip pattern, leaves every
processed definition reflected in the store, and preserves the reflection
of any definition whose name the catalog does not touch. -/
theorem registerAux_pass1 (exp : Bool) :
    ∀ (cat : List RunnerDef) (S : Store),
      storeWF S →
      (∀ d ∈ cat, validateDef (stripd d) = true) →
      ((cat.map RunnerDef.name).Nodup) →
      storeWF (registerAux exp noFault noFault cat S).store ∧
      (registerAux exp noFault noFault cat S).err = none ∧
      (registerAux exp noFault noFault cat S).cat
        = cat.map (fun d => if skipd exp d then d else stripd d) ∧
      ((registerAux exp noFault noFault cat S).outs.map
          (fun o => if o = Outcome.Skipped then o else Outcome.Updated))
        = cat.map (fun d => if skipd exp d then Outcome.Skipped else Outcome.Updated) ∧
      (∀ d ∈ cat, skipd exp d = false →
        reflects (registerAux exp noFault noFault cat S).store d) ∧
      (∀ e : RunnerDef, reflects S e → e.name ∉ cat.map RunnerDef.name →
        reflects (registerAux exp noFault noFault cat S).store e) := by
  intro cat
  induction cat with
  | nil =>
    intro S hWF _ _
    exact ⟨hWF, rfl, rfl, rfl, by simp, fun e hre _ => hre⟩
  | cons d ds ih =>
    intro S hWF hv hnd
    have hvds : ∀ e ∈ ds, validateDef (stripd e) = true := fun e he => hv e (by simp [he])
    have hnd' : (d.name :: ds.map RunnerDef.name).Nodup := by simpa using hnd
    have hndds : (ds.map RunnerDef.name).Nodup := (List.nodup_cons.mp hnd').2
    have hdnotin : d.name ∉ ds.map RunnerDef.name := (List.nodup_cons.mp hnd').1
    by_cases hs : skipd exp d = true
    · rw [registerAux_cons_ok (processDef_of_skip hs)]
      obtain ⟨iWF, ierr, icat, iouts, irefl, ipres⟩ := ih S hWF hvds hndds
      refine ⟨iWF, ierr, ?_, ?_, ?_, ?_⟩
      · simp [icat, hs]
      · simp [iouts, hs]
      · intro e he hse
        rcases List.mem_cons.mp he with rfl | he'
        · simp [hs] at hse
        · exact irefl e he' hse
      · intro e hre hnotin
        refine ipres e hre ?_
        intro hmem
        exact hnotin (by simp [hmem])
    · have hs' : skipd exp d = false := by simpa using hs
      have hvd : validateDef (stripd d) = true := hv d (by simp)
      have hstep := @processDef_of_success exp noFault noFault S d hs' rfl hvd rfl
      rw [registerAux_cons_ok hstep]
      have hWF2 : storeWF (upsertModel S
          ⟨(findByName S d.name).map (fun r => r.id), stripd d⟩) := by
        have h := processDef_storeWF exp noFault noFault S d hWF
        rwa [hstep] at h
      have hrefl2 : reflects (upsertModel S
          ⟨(findByName S d.name).map (fun r => r.id), stripd d⟩) d := by
        have h := @processDef_reflects_self exp noFault noFault S d hWF hs' rfl hvd rfl
        rwa [hstep] at h
      obtain ⟨iWF, ierr, icat, iouts, irefl, ipres⟩ :=
        ih (upsertModel S ⟨(findByName S d.name).map (fun r => r.id), stripd d⟩)
          hWF2 hvds hndds
      refine ⟨iWF, ierr, ?_, ?_, ?_, ?_⟩
      · simp [icat, hs']
      · rw [List.map_cons, iouts, List.map_cons]
        have : ((if (findByName S d.name).isSome then Outcome.Updated else Outcome.Created)
            = Outcome.Skipped) = False := by
          cases (findByName S d.name).isSome <;> simp
        simp [hs', this]
      · intro e he hse
        rcases List.mem_cons.mp he with rfl | he'
        · exact ipres e hrefl2 hdnotin
        · exact irefl e he' hse
      · intro e hre hnotin
        have hnotds : e.name ∉ ds.map RunnerDef.name := by
          intro hmem
          exact hnotin (by simp [hmem])
        have hned : e.name ≠ d.name := by
          intro hend
          exact hnotin (by simp [hend])
        have hre2 : reflects (upsertModel S
            ⟨(findByName S d.name).map (fun r => r.id), stripd d⟩) e := by
          have h := @processDef_reflects_other exp noFault noFault S d e hWF hned hre
          rwa [hstep] at h
        exact ipres e hre2 hnotds

/-- A second pass over a catalog whose non-skipped definitions are already
stripped, valid and reflected in the store is the identity on catalog and
store and yields Updated for every non-skipped entry. -/
theorem registerAux_pass2 (exp : Bool) :
    ∀ (cat : List RunnerDef) (S : Store),
      storeWF S →
      (∀ d ∈ cat, skipd exp d = false →
        validateDef (stripd d) = true ∧ stripd d = d ∧ reflects S d) →
      registerAux exp noFault noFault cat S =
        ⟨cat, S,
         cat.map (fun d => if skipd exp d then Outcome.Skipped else Outcome.Updated),
         none⟩ := by
  intro cat
  induction cat with
  | nil => intro S _ _; rfl
  | cons d ds ih =>
    intro S hWF h
    by_cases hs : skipd exp d = true
    · rw [registerAux_cons_ok (processDef_of_skip hs)]
      rw [ih S hWF (fun e he hse => h e (by simp [he]) hse)]
      simp [hs]
    · have hs' : skipd exp d = false := by simpa using hs
      obtain ⟨hvd, hsd, r, hfr, hrc⟩ := h d (by simp) hs'
      rw [registerAux_cons_ok (processDef_fix hWF hfr hrc hsd hvd)]
      rw [ih S hWF (fun e he hse => h e (by simp [he]) hse)]
      simp [hs']

/-- Any property of the store preserved by one step is preserved by the
whole pass, aborted or not. -/
theorem registerAux_store_inv (P : Store → Prop) (exp : Bool)
    (lf pf : String → Bool)
    (hstep : ∀ S d, P S → P (processDef exp lf pf S d).2.1) :
    ∀ (cat : List RunnerDef) (S : Store), P S →
      P (registerAux exp lf pf cat S).store := by
  intro cat
  induction cat with
  | nil => intro S h; exact h
  | cons d ds ih =>
    intro S h
    have h' : P (processDef exp lf pf S d).2.1 := hstep S d h
    rcases hres : processDef exp lf pf S d with ⟨d', S', res⟩
    rw [hres] at h'
    cases res with
    | ok o =>
        rw [registerAux_cons_ok hres]
        exact ih S' h'
    | error e =>
        rw [registerAux_cons_err hres]
        exact h'

/-- The pass emits at most one outcome per catalog entry. -/
theorem registerAux_outs_le (exp : Bool) (lf pf : String → Bool) :
    ∀ (cat : List RunnerDef) (S : Store),
      (registerAux exp lf pf cat S).outs.length ≤ cat.length := by
  intro cat
  induction cat with
  | nil => intro S; exact Nat.le_refl _
  | cons d ds ih =>
    intro S
    rcases hres : processDef exp lf pf S d with ⟨d', S', res⟩
    cases res with
    | ok o =>
        rw [registerAux_cons_ok hres]
        simpa using ih S'
    | error e =>
        rw [registerAux_cons_err hres]
        simp

/-- Replacing the looked-up record by id keeps a record with that id
findable under the same name predicate. -/
theorem find?_map_replace_id {p : Record → Bool} {r : Record} {c : RunnerDef} :
    ∀ {l : List Record}, l.find? p = some r → p ⟨r.id, c⟩ = true →
      ∃ y, (l.map (fun x => if x.id = r.id then (⟨r.id, c⟩ : Record) else x)).find? p
          = some y ∧ y.id = r.id := by
  intro l
  induction l with
  | nil => intro hf; simp at hf
  | cons x xs ih =>
    intro hf hpc
    cases hp : p x with
    | true =>
        rw [List.find?_cons_of_pos xs hp] at hf
        have hx : x = r := by injection hf
        subst hx
        refine ⟨⟨x.id, c⟩, ?_, rfl⟩
        rw [List.map_cons, if_pos rfl, List.find?_cons_of_pos _ hpc]
    | false =>
        rw [List.find?_cons_of_neg xs (by simp [hp])] at hf
        by_cases hid : x.id = r.id
        · refine ⟨⟨r.id, c⟩, ?_, rfl⟩
          rw [List.map_cons, if_pos hid, List.find?_cons_of_pos _ hpc]
        · rcases ih hf hpc with ⟨y, hy, hyid⟩
          refine ⟨y, ?_, hyid⟩
          rw [List.map_cons, if_neg hid, List.find?_cons_of_neg _ (by simp [hp])]
          exact hy

/-- All persisted contents carry no experimental marker: one upsert. -/
theorem upsert_exp_none {S : Store} {m : RTModel}
    (h : ∀ r ∈ S.records, r.content.experimental = none)
    (hm : m.content.experimental = none) :
    ∀ r ∈ (upsertModel S m).records, r.content.experimental = none := by
  intro r hr
  cases m with
  | mk mid mc =>
    cases mid with
    | some i =>
        rcases List.mem_map.mp hr with ⟨x, hx, hfx⟩
        by_cases hxi : x.id = i
        · rw [← hfx, if_pos hxi]
          exact hm
        · rw [← hfx, if_neg hxi]
          exact h x hx
    | none =>
        rcases List.mem_append.mp hr with hx | hx
        · exact h r hx
        · simp only [List.mem_singleton] at hx
          subst hx
          exact hm

/-- All persisted contents carry no experimental marker: one step. -/
theorem processDef_exp_none (exp : Bool) (lf pf : String → Bool) (S : Store)
    (d : RunnerDef) (h : ∀ r ∈ S.records, r.content.experimental = none) :
    ∀ r ∈ (processDef exp lf pf S d).2.1.records, r.content.experimental = none := by
  apply processDef_cases
    (motive := fun t => ∀ r ∈ t.2.1.records, r.content.experimental = none)
  · intro _; exact h
  · intro _ _; exact h
  · intro _ _ _; exact h
  · intro _ _ _ _; exact h
  · intro _ _ _ _
    exact upsert_exp_none h rfl

/-- One step preserves name distinctness and membership (given a
well-formed store). -/
theorem processDef_names_inv (exp : Bool) (lf pf : String → Bool) (S : Store)
    (d : RunnerDef) (hWF : storeWF S) (hnn : storeNamesNodup S) :
    storeNamesNodup (processDef exp lf pf S d).2.1 ∧
    (∀ n, nameMem S n → nameMem (processDef exp lf pf S d).2.1 n) := by
  rcases processDef_names exp lf pf S d hWF with heq | ⟨heq, hnone⟩
  · constructor
    · show ((processDef exp lf pf S d).2.1.records.map (fun x => x.content.name)).Nodup
      rw [heq]
      exact hnn
    · intro n hn
      rw [nameMem_iff, heq]
      exact nameMem_iff.mp hn
  · constructor
    · show ((processDef exp lf pf S d).2.1.records.map (fun x => x.content.name)).Nodup
      rw [heq, List.nodup_append]
      refine ⟨hnn, by simp, ?_⟩
      intro a ha hb
      simp only [List.mem_singleton] at hb
      subst hb
      exact notMem_names_of_findByName_none hnone ha
    · intro n hn
      rw [nameMem_iff, heq]
      exact List.mem_append.mpr (Or.inl (nameMem_iff.mp hn))

/-! ### Concrete fixtures -/

def gdefA : RunnerDef := { name := "alpha", runner_module := "mod.alpha" }

def gdefM : RunnerDef := { name := "bravo", runner_module := "mod.bravo" }

def gdefB : RunnerDef := { name := "beta", runner_module := "mod.beta" }

def baddef : RunnerDef :=
  { name := "badparam", runner_module := "mod.bad",
    runner_parameters := [("p", { required := some true, default := some (.b true) })] }

def expdef : RunnerDef :=
  { name := "expo", experimental := some true, runner_module := "mod.expo" }

def badexpdef : RunnerDef :=
  { name := "badexpo", experimental := some true, runner_module := "mod.badexpo",
    runner_parameters := [("q", { required := some true, default := some (.i 5) })] }

def gdefA2 : RunnerDef :=
  { name := "alpha", description := "updated", runner_module := "mod.alpha2" }

def storeA : Store := ⟨[⟨7, gdefA⟩], 8⟩

def pfBravo : String → Bool := fun n => n == "bravo"

def lfAlpha : String → Bool := fun n => n == "alpha"

/-! ### Claims -/

/-- C1, counterexample: a validation failure is not caught — it escapes
`register_runner_types` and aborts the pass, so a catalog of 3 where the
2nd fails validation yields one outcome, not three, and the 3rd
definition is never persisted. -/
theorem C1_counterexample :
    (register_runner_types false [gdefA, baddef, gdefB] emptyStore noFault noFault).outs
      = [Outcome.Created] ∧
    (register_runner_types false [gdefA, baddef, gdefB] emptyStore noFault noFault).err
      = some RegError.validationError ∧
    findByName (register_runner_types false [gdefA, baddef, gdefB] emptyStore
      noFault noFault).store "beta" = none :=
  ⟨rfl, rfl, rfl⟩

/-- C1 (amended): only the persistence step is caught and converted into
that definition's Failed outcome with the following definitions still
processed; when every definition validates and every lookup succeeds the
pass completes with one outcome per definition, whatever the persistence
failures.  For a catalog of 3 where the 2nd fails persistence, the result
is Created, Failed, Created and the 3rd is still persisted. -/
theorem C1_amended :
    (∀ (exp : Bool) (lf pf : String → Bool) (cat : List RunnerDef) (S : Store),
      (∀ d ∈ cat, validateDef (stripd d) = true) →
      (∀ d ∈ cat, lf d.name = false) →
      (register_runner_types exp cat S lf pf).err = none ∧
      (register_runner_types exp cat S lf pf).outs.length = cat.length) ∧
    ((register_runner_types false [gdefA, gdefM, gdefB] emptyStore noFault pfBravo).outs
        = [Outcome.Created, Outcome.Failed, Outcome.Created] ∧
     findByName (register_runner_types false [gdefA, gdefM, gdefB] emptyStore
        noFault pfBravo).store "beta" = some ⟨1, gdefB⟩) := by
  refine ⟨?_, rfl, rfl⟩
  intro exp lf pf cat S hv hl
  exact registerAux_complete exp lf pf cat S hv hl

theorem C1_witness :
    (register_runner_types false [gdefA] emptyStore noFault noFault).err = none ∧
    (register_runner_types false [gdefA] emptyStore noFault noFault).outs.length = 1 :=
  C1_amended.1 false noFault noFault [gdefA] emptyStore (by decide) (by intro d _; rfl)

/-- C3: identity preservation — if a record with the definition's name is
in the store before the step, a record with the same id is found under
that name afterwards: the existing id is copied onto the new record and
never regenerated, and no failure path changes it either. -/
theorem C3_identity_preserved (exp : Bool) (lf pf : String → Bool) (S : Store)
    (d : RunnerDef) (r : Record) (hf : findByName S d.name = some r) :
    ∃ r', findByName (processDef exp lf pf S d).2.1 d.name = some r'
      ∧ r'.id = r.id := by
  apply processDef_cases
    (motive := fun t => ∃ r', findByName t.2.1 d.name = some r' ∧ r'.id = r.id)
  · intro _; exact ⟨r, hf, rfl⟩
  · intro _ _; exact ⟨r, hf, rfl⟩
  · intro _ _ _; exact ⟨r, hf, rfl⟩
  · intro _ _ _ _; exact ⟨r, hf, rfl⟩
  · intro _ _ _ _
    rw [hf]
    exact find?_map_replace_id (c := stripd d) hf (by simp [stripd])

theorem C3_witness :
    ∃ r', findByName (processDef false noFault noFault storeA gdefA2).2.1 "alpha"
      = some r' ∧ r'.id = 7 :=
  C3_identity_preserved false noFault noFault storeA gdefA2 ⟨7, gdefA⟩ rfl

/-- C6, counterexample: a lookup failure other than not-found aborts the
whole pass with no Failed outcome; the second definition is never
attempted and the store is untouched. -/
theorem C6_counterexample :
    (register_runner_types false [gdefA, gdefB] emptyStore lfAlpha noFault).outs = [] ∧
    (register_runner_types false [gdefA, gdefB] emptyStore lfAlpha noFault).err
      = some RegError.lookupError ∧
    (register_runner_types false [gdefA, gdefB] emptyStore lfAlpha noFault).store
      = emptyStore :=
  ⟨rfl, rfl, rfl⟩

/-- C6 (amended): only the not-found case of the lookup is handled (it
selects the create path); any other lookup failure propagates out of
`register_runner_types`, aborting the pass at that definition: no Failed
outcome is recorded, the store is unchanged, and the following
definitions are not processed. -/
theorem C6_amended (exp : Bool) (lf pf : String → Bool) (S : Store)
    (d : RunnerDef) (ds : List RunnerDef) (hs : skipd exp d = false)
    (hl : lf d.name = true) :
    register_runner_types exp (d :: ds) S lf pf
      = ⟨stripd d :: ds, S, [], some RegError.lookupError⟩ :=
  registerAux_cons_err (processDef_of_lfail hs hl)

theorem C6_witness :
    register_runner_types false [gdefA, gdefB] emptyStore lfAlpha noFault
      = ⟨[stripd gdefA, gdefB], emptyStore, [], some RegError.lookupError⟩ :=
  C6_amended false lfAlpha noFault emptyStore gdefA [gdefB] rfl rfl

/-- C8, counterexample: the pass can abort early — with a catalog of 2
whose 1st fails validation there are zero outcomes and the 2nd definition
is never attempted. -/
theorem C8_counterexample :
    (register_runner_types false [baddef, gdefA] emptyStore noFault noFault).outs.length
      = 0 ∧
    (register_runner_types false [baddef, gdefA] emptyStore noFault noFault).err
      = some RegError.validationError ∧
    findByName (register_runner_types false [baddef, gdefA] emptyStore
      noFault noFault).store "alpha" = none :=
  ⟨rfl, rfl, rfl⟩

/-- C8 (amended): when every definition validates and every lookup
succeeds, the pass returns exactly one outcome per catalog definition in
catalog order and never aborts; in general it processes a prefix of the
catalog, emitting at most one outcome per definition, and stops early
only on an uncaught lookup or validation error. -/
theorem C8_amended :
    (∀ (exp : Bool) (lf pf : String → Bool) (cat : List RunnerDef) (S : Store),
      (∀ d ∈ cat, validateDef (stripd d) = true) →
      (∀ d ∈ cat, lf d.name = false) →
      (register_runner_types exp cat S lf pf).outs.length = cat.length ∧
      (register_runner_types exp cat S lf pf).err = none) ∧
    (∀ (exp : Bool) (lf pf : String → Bool) (cat : List RunnerDef) (S : Store),
      (register_runner_types exp cat S lf pf).outs.length ≤ cat.length) := by
  constructor
  · intro exp lf pf cat S hv hl
    have h := registerAux_complete exp lf pf cat S hv hl
    exact ⟨h.2, h.1⟩
  · intro exp lf pf cat S
    exact registerAux_outs_le exp lf pf cat S

theorem C8_witness :
    (register_runner_types false [gdefA, gdefB] emptyStore noFault noFault).outs.length
      = 2 ∧
    (register_runner_types false [gdefA, gdefB] emptyStore noFault noFault).err
      = none :=
  C8_amended.1 false noFault noFault [gdefA, gdefB] emptyStore (by decide)
    (by intro d _; rfl)

/-- C2, counterexample: with include_experimental=true an experimental
definition need not yield Created or Updated — one whose parameters fail
validation yields no outcome at all, since the validation error escapes
and aborts the pass. -/
theorem C2_counterexample :
    badexpdef.experimental = some true ∧
    (register_runner_types true [badexpdef] emptyStore noFault noFault).outs = [] ∧
    (register_runner_types true [badexpdef] emptyStore noFault noFault).err
      = some RegError.validationError :=
  ⟨rfl, rfl, rfl⟩

/-- C2 (amended): with include_experimental=false an experimental
definition is skipped and nothing is looked up, validated or persisted
(the step is independent of the store and of any injected failure, and
returns it unchanged); with include_experimental=true a definition that
passes validation yields Created or Updated; and persisted records never
carry an experimental field. -/
theorem C2_amended :
    (∀ (lf pf : String → Bool) (S : Store) (d : RunnerDef),
      d.experimental = some true →
      processDef false lf pf S d = (d, S, .ok .Skipped)) ∧
    (∀ (S : Store) (d : RunnerDef), d.experimental = some true →
      validateDef (stripd d) = true →
      (processDef true noFault noFault S d).2.2 = .ok .Created ∨
      (processDef true noFault noFault S d).2.2 = .ok .Updated) ∧
    (∀ (exp : Bool) (lf pf : String → Bool) (cat : List RunnerDef) (S : Store),
      (∀ r ∈ S.records, r.content.experimental = none) →
      ∀ r ∈ (register_runner_types exp cat S lf pf).store.records,
        r.content.experimental = none) := by
  refine ⟨?_, ?_, ?_⟩
  · intro lf pf S d hd
    exact processDef_of_skip (by simp [skipd, hd])
  · intro S d hd hv
    have hs : skipd true d = false := by simp [skipd]
    rw [processDef_of_success hs rfl hv rfl]
    cases hex : (findByName S d.name).isSome
    · left; simp [hex]
    · right; simp [hex]
  · intro exp lf pf cat S h
    exact registerAux_store_inv
      (fun T => ∀ r ∈ T.records, r.content.experimental = none) exp lf pf
      (fun T d h' => processDef_exp_none exp lf pf T d h') cat S h

theorem C2_witness :
    processDef false (fun _ => true) (fun _ => true) emptyStore expdef
      = (expdef, emptyStore, .ok .Skipped) :=
  C2_amended.1 (fun _ => true) (fun _ => true) emptyStore expdef rfl

/-- C4, counterexample: idempotence as claimed fails — for a catalog whose
only definition fails validation, the definition is not skipped yet the
second run yields no Updated outcome for it (both runs abort). -/
theorem C4_counterexample :
    skipd false baddef = false ∧
    (register_runner_types false
        (register_runner_types false [baddef] emptyStore noFault noFault).cat
        (register_runner_types false [baddef] emptyStore noFault noFault).store
        noFault noFault).outs = [] ∧
    (register_runner_types false
        (register_runner_types false [baddef] emptyStore noFault noFault).cat
        (register_runner_types false [baddef] emptyStore noFault noFault).store
        noFault noFault).err = some RegError.validationError :=
  ⟨rfl, rfl, rfl⟩

/-- C4 (amended): for a fault-free store and a catalog with pairwise
distinct names whose definitions all validate, a second run is the
identity on catalog and store and yields Updated for every non-skipped
definition (Skipped outcomes repeat). -/
theorem C4_amended (exp : Bool) (cat : List RunnerDef) (S : Store)
    (hWF : storeWF S) (hv : ∀ d ∈ cat, validateDef (stripd d) = true)
    (hnd : (cat.map RunnerDef.name).Nodup) :
    register_runner_types exp
        (register_runner_types exp cat S noFault noFault).cat
        (register_runner_types exp cat S noFault noFault).store
        noFault noFault
      = ⟨(register_runner_types exp cat S noFault noFault).cat,
         (register_runner_types exp cat S noFault noFault).store,
         (register_runner_types exp cat S noFault noFault).outs.map
           (fun o => if o = Outcome.Skipped then o else Outcome.Updated),
         none⟩ := by
  obtain ⟨iWF, ierr, icat, iouts, irefl, ipres⟩ := registerAux_pass1 exp cat S hWF hv hnd
  have h2 : ∀ d' ∈ (registerAux exp noFault noFault cat S).cat, skipd exp d' = false →
      validateDef (stripd d') = true ∧ stripd d' = d' ∧
      reflects (registerAux exp noFault noFault cat S).store d' := by
    intro d' hd' hsd'
    rw [icat] at hd'
    rcases List.mem_map.mp hd' with ⟨d, hd, hdd'⟩
    by_cases hs : skipd exp d = true
    · rw [if_pos hs] at hdd'
      subst hdd'
      simp [hs] at hsd'
    · have hs' : skipd exp d = false := by simpa using hs
      rw [if_neg (by simp [hs'])] at hdd'
      subst hdd'
      refine ⟨?_, stripd_idem d, ?_⟩
      · show validateDef (stripd (stripd d)) = true
        rw [stripd_idem]
        exact hv d hd
      · rcases irefl d hd hs' with ⟨r, hfr, hrc⟩
        exact ⟨r, hfr, by rw [hrc, stripd_idem]⟩
  have hp2 := registerAux_pass2 exp (registerAux exp noFault noFault cat S).cat
      (registerAux exp noFault noFault cat S).store iWF h2
  have hcats : (registerAux exp noFault noFault cat S).cat.map
      (fun d => if skipd exp d then Outcome.Skipped else Outcome.Updated)
      = cat.map (fun d => if skipd exp d then Outcome.Skipped else Outcome.Updated) := by
    rw [icat, List.map_map]
    apply List.map_congr_left
    intro d hd
    by_cases hs : skipd exp d = true
    · simp [Function.comp, hs]
    · have hs' : skipd exp d = false := by simpa using hs
      simp [Function.comp, hs', skipd_stripd]
  calc register_runner_types exp
        (register_runner_types exp cat S noFault noFault).cat
        (register_runner_types exp cat S noFault noFault).store
        noFault noFault
      = ⟨(registerAux exp noFault noFault cat S).cat,
         (registerAux exp noFault noFault cat S).store,
         (registerAux exp noFault noFault cat S).cat.map
           (fun d => if skipd exp d then Outcome.Skipped else Outcome.Updated),
         none⟩ := hp2
    _ = _ := by rw [hcats, ← iouts]; exact rfl

theorem C4_witness :
    register_runner_types false
        (register_runner_types false [gdefA, expdef] emptyStore noFault noFault).cat
        (register_runner_types false [gdefA, expdef] emptyStore noFault noFault).store
        noFault noFault
      = ⟨(register_runner_types false [gdefA, expdef] emptyStore noFault noFault).cat,
         (register_runner_types false [gdefA, expdef] emptyStore noFault noFault).store,
         (register_runner_types false [gdefA, expdef] emptyStore noFault
             noFault).outs.map
           (fun o => if o = Outcome.Skipped then o else Outcome.Updated),
         none⟩ :=
  C4_amended false [gdefA, expdef] emptyStore ⟨List.nodup_nil, by simp [emptyStore]⟩
    (by decide) (by decide)

/-- C5, counterexample: the registration operation is not side-effect-free
on the catalog — run with experimental=true it returns a catalog different
from RUNNER_TYPES (the experimental marker of the entry the pass reached
was deleted in place). -/
theorem C5_counterexample :
    (register_runner_types true (RUNNER_TYPES 0 0 0 "") emptyStore noFault
      noFault).cat ≠ RUNNER_TYPES 0 0 0 "" := by
  intro h
  have h2 := congrArg (fun l => l.map (fun d : RunnerDef => d.experimental)) h
  have h3 : ([none, none, none, none, none, none, none, none, none, none,
      some true] : List (Option Bool))
      = [none, none, none, none, none, none, none, none, none, some true,
      some true] := h2
  exact absurd h3 (by decide)

/-- C5 (amended): supplying the definitions is pure, and with
include_experimental=false the run leaves RUNNER_TYPES unchanged (the
experimental entries are skipped before the marker deletion); with
include_experimental=true the marker is deleted in place from each
experimental entry the pass reaches before aborting. -/
theorem C5_amended (a b c : Int) (s : String) :
    (register_runner_types false (RUNNER_TYPES a b c s) emptyStore noFault
        noFault).cat = RUNNER_TYPES a b c s ∧
    (register_runner_types true (RUNNER_TYPES a b c s) emptyStore noFault
        noFault).cat.map (fun d => d.experimental)
      = [none, none, none, none, none, none, none, none, none, none, some true] :=
  ⟨rfl, rfl⟩

/-- C7, counterexample: a required parameter with a default fails the
validation, but not by "yielding outcome Failed": the validation error
escapes and aborts the pass with no outcome at all (shown on the
catalog's run-windows-cmd entry, whose username parameter carries
required=true and a default). -/
theorem C7_counterexample :
    validateDef (stripd ((RUNNER_TYPES 0 0 0 "").getD 9 gdefA)) = false ∧
    (register_runner_types true [(RUNNER_TYPES 0 0 0 "").getD 9 gdefA] emptyStore
      noFault noFault).outs = [] ∧
    (register_runner_types true [(RUNNER_TYPES 0 0 0 "").getD 9 gdefA] emptyStore
      noFault noFault).err = some RegError.validationError :=
  ⟨rfl, rfl, rfl⟩

/-- C7 (amended): a ParameterSpec with required=true and a present default
fails validation — in particular both Windows runner entries of
RUNNER_TYPES do — and the definition is not persisted; but the failure
propagates as an exception that aborts the pass rather than yielding
outcome Failed. -/
theorem C7_amended :
    (∀ (d : RunnerDef) (ps : String × ParameterSpec), ps ∈ d.runner_parameters →
      ps.2.required = some true → (ps.2.default).isSome = true →
      validateDef d = false) ∧
    (∀ (exp : Bool) (lf pf : String → Bool) (S : Store) (d : RunnerDef),
      skipd exp d = false → lf d.name = false → validateDef (stripd d) = false →
      processDef exp lf pf S d = (stripd d, S, .error .validationError)) ∧
    (∀ (a b c : Int) (s : String),
      validateDef ((RUNNER_TYPES a b c s).getD 9 gdefA) = false ∧
      validateDef ((RUNNER_TYPES a b c s).getD 10 gdefA) = false) := by
  refine ⟨?_, ?_, ?_⟩
  · intro d ps hmem hreq hdef
    have hC : d.runner_parameters.all
        (fun p => !(p.2.required == some true && p.2.default.isSome)) = false := by
      rw [List.all_eq_false]
      exact ⟨ps, hmem, by simp [hreq, hdef]⟩
    unfold validateDef
    rw [hC]
    simp
  · intro exp lf pf S d hs hl hv
    exact processDef_of_invalid hs hl hv
  · intro a b c s
    exact ⟨rfl, rfl⟩

/-- C9: the one-record-per-name invariant is preserved by a pass (given
the store's ids are well-formed): name distinctness of stored records is
kept, no stored name is ever removed, the catalog's definition names are
pairwise distinct, and a Created/Updated outcome leaves a record with the
definition's name in the store. -/
theorem C9_one_record_per_name :
    (∀ (exp : Bool) (lf pf : String → Bool) (cat : List RunnerDef) (S : Store),
      storeWF S → storeNamesNodup S →
      storeNamesNodup (register_runner_types exp cat S lf pf).store ∧
      (∀ n, nameMem S n → nameMem (register_runner_types exp cat S lf pf).store n)) ∧
    (∀ (a b c : Int) (s : String),
      ((RUNNER_TYPES a b c s).map RunnerDef.name).Nodup) ∧
    (∀ (exp : Bool) (lf pf : String → Bool) (S : Store) (d : RunnerDef)
      (o : Outcome), (processDef exp lf pf S d).2.2 = .ok o →
      o = .Created ∨ o = .Updated →
      nameMem (processDef exp lf pf S d).2.1 d.name) := by
  refine ⟨?_, ?_, ?_⟩
  · intro exp lf pf cat S hWF hnn
    have hstep : ∀ (T : Store) (d : RunnerDef),
        (storeWF T ∧ storeNamesNodup T ∧ ∀ n, nameMem S n → nameMem T n) →
        storeWF (processDef exp lf pf T d).2.1 ∧
        storeNamesNodup (processDef exp lf pf T d).2.1 ∧
        ∀ n, nameMem S n → nameMem (processDef exp lf pf T d).2.1 n := by
      intro T d h
      have hni := processDef_names_inv exp lf pf T d h.1 h.2.1
      exact ⟨processDef_storeWF exp lf pf T d h.1, hni.1,
        fun n hn => hni.2 n (h.2.2 n hn)⟩
    have h := registerAux_store_inv
      (fun T => storeWF T ∧ storeNamesNodup T ∧ ∀ n, nameMem S n → nameMem T n)
      exp lf pf hstep cat S ⟨hWF, hnn, fun n hn => hn⟩
    exact ⟨h.2.1, h.2.2⟩
  · intro a b c s
    show (["run-local", "run-local-script", "run-remote", "run-remote-script",
      "http-runner", "mistral-v1", "mistral-v2", "action-chain", "run-python",
      "run-windows-cmd", "run-windows-script"] : List String).Nodup
    decide
  · intro exp lf pf S d o hres ho
    revert hres
    apply processDef_cases
      (motive := fun t => t.2.2 = .ok o → nameMem t.2.1 d.name)
    · intro _ h
      rcases ho with rfl | rfl <;> simp at h
    · intro _ _ h
      simp at h
    · intro _ _ _ h
      simp at h
    · intro _ _ _ _ h
      rcases ho with rfl | rfl <;> simp at h
    · intro _ _ _ _ _
      cases hex : findByName S d.name with
      | some r =>
          simp only [hex, Option.map_some']
          exact ⟨⟨r.id, stripd d⟩,
            List.mem_map.mpr ⟨r, findByName_mem hex, by simp⟩, rfl⟩
      | none =>
          simp only [hex, Option.map_none']
          exact ⟨⟨S.nextId, stripd d⟩, by simp [upsertModel], rfl⟩

/-- C10, counterexample: the exp=true call does not delete the marker from
every experimental entry — the pass aborts at run-windows-cmd, so
run-windows-script keeps its marker — and subsequent calls do not persist
the formerly experimental runners: the stripped run-windows-cmd fails
validation again and neither Windows runner is ever stored. -/
theorem C10_counterexample :
    ((register_runner_types true (RUNNER_TYPES 0 0 0 "") emptyStore noFault
        noFault).cat.map (fun d => d.experimental)).getD 10 none = some true ∧
    findByName (register_runner_types false
        (register_runner_types true (RUNNER_TYPES 0 0 0 "") emptyStore noFault
          noFault).cat
        (register_runner_types true (RUNNER_TYPES 0 0 0 "") emptyStore noFault
          noFault).store
        noFault noFault).store "run-windows-cmd" = none ∧
    findByName (register_runner_types false
        (register_runner_types true (RUNNER_TYPES 0 0 0 "") emptyStore noFault
          noFault).cat
        (register_runner_types true (RUNNER_TYPES 0 0 0 "") emptyStore noFault
          noFault).store
        noFault noFault).store "run-windows-script" = none :=
  ⟨rfl, rfl, rfl⟩

/-- C10 (amended): with experimental=true the marker is deleted in place
from each experimental entry the pass reaches — run-windows-cmd is
stripped, then fails validation and aborts the pass unpersisted, while
run-windows-script is never reached and keeps its marker; with
experimental=false the experimental entries are skipped before the
deletion, keep their markers, and stay skipped on repeated calls. -/
theorem C10_amended :
    ((register_runner_types true (RUNNER_TYPES 0 0 0 "") emptyStore noFault
        noFault).cat.map (fun d => d.experimental)
      = [none, none, none, none, none, none, none, none, none, none, some true]) ∧
    (register_runner_types true (RUNNER_TYPES 0 0 0 "") emptyStore noFault
        noFault).err = some RegError.validationError ∧
    findByName (register_runner_types true (RUNNER_TYPES 0 0 0 "") emptyStore
        noFault noFault).store "run-windows-cmd" = none ∧
    (register_runner_types false (RUNNER_TYPES 0 0 0 "") emptyStore noFault
        noFault).cat = RUNNER_TYPES 0 0 0 "" ∧
    (register_runner_types false (RUNNER_TYPES 0 0 0 "") emptyStore noFault
        noFault).outs.getD 9 Outcome.Failed = Outcome.Skipped ∧
    (register_runner_types false
        (register_runner_types false (RUNNER_TYPES 0 0 0 "") emptyStore noFault
          noFault).cat
        (register_runner_types false (RUNNER_TYPES 0 0 0 "") emptyStore noFault
          noFault).store
        noFault noFault).outs.getD 9 Outcome.Failed = Outcome.Skipped :=
  ⟨rfl, rfl, rfl, rfl, rfl, rfl⟩
